import Mathlib

/-!
# Verification of the smart-money trade-copy engine

Shallow embedding of `src/services/smart-money-service.ts` (the cohort cache,
the trade subscription / filter pipeline, and the auto-copy trading handler)
together with proofs about the embedded operations.

Modelling conventions:
* JavaScript numbers are modelled as exact rationals (`ℚ`); timestamps as `ℤ`.
* A JS `Map` is an association list in insertion order (`Map.set` updates an
  existing key in place, otherwise appends); a JS `Set` is a duplicate-free
  list in insertion order.
* The external leaderboard provider's response to `getLeaderboard(0, limit)`
  is an explicit `entries` parameter of the refresh; the event stream and the
  trading backend are likewise parameters.
-/

namespace SmartMoney

/-- Models JavaScript's `String.prototype.toLowerCase()` for the ASCII
addresses used by the service (`address.toLowerCase()`). -/
def jsToLower (s : String) : String := String.mk (s.data.map Char.toLower)

/-- Trade side, the TS union type `'BUY' | 'SELL'`. -/
inductive Side
  | BUY
  | SELL
deriving DecidableEq, Repr

-- ============================================================================
-- Cohort cache (getSmartMoneyList / isSmartMoney), lines 687-781, 2264-2266
-- ============================================================================

/-- Structure `SmartMoneyWallet` (lines 100-107). `rank` is stored after the
`trader.rank ?? i + 1` default, hence total. -/
structure SmartMoneyWallet where
  address : String
  name : Option String
  pnl : ℚ
  volume : ℚ
  score : ℤ
  rank : Nat
deriving DecidableEq, Repr

/-- One leaderboard entry as returned by the external provider
(`walletService.getLeaderboard`), fields as consumed at lines 737-748. -/
structure LeaderboardEntry where
  address : String
  userName : Option String
  pnl : ℚ
  volume : ℚ
  rank : Option Nat
deriving DecidableEq, Repr

/-- The resolved service config (lines 706-709): `minPnl` (default 1000) and
`cacheTtl` in milliseconds (default 300000). -/
structure SmartMoneyConfig where
  minPnl : ℚ
  cacheTtl : ℤ
deriving DecidableEq, Repr

/-- The mutable cache fields of the service (lines 687-689):
`smartMoneyCache : Map<string, SmartMoneyWallet>`,
`smartMoneySet : Set<string>`, `cacheTimestamp : number`. -/
structure CacheState where
  smartMoneyCache : List (String × SmartMoneyWallet)
  smartMoneySet : List String
  cacheTimestamp : ℤ
deriving DecidableEq, Repr

/-- Initial cache state: empty map and set, `cacheTimestamp = 0` (line 689). -/
def emptyCache : CacheState := ⟨[], [], 0⟩

/-- Predicate `isCacheValid` (lines 2264-2266):
`Date.now() - this.cacheTimestamp < this.config.cacheTtl && this.smartMoneyCache.size > 0`. -/
def isCacheValid (cfg : SmartMoneyConfig) (st : CacheState) (now : ℤ) : Bool :=
  decide (now - st.cacheTimestamp < cfg.cacheTtl) && decide (0 < st.smartMoneyCache.length)

/-- JS `Map.set`: update the value in place if the key is present (keeping the
insertion position), otherwise append. -/
def mapSet (m : List (String × SmartMoneyWallet)) (k : String) (v : SmartMoneyWallet) :
    List (String × SmartMoneyWallet) :=
  if k ∈ m.map Prod.fst then m.map (fun p => if p.1 = k then (k, v) else p)
  else m ++ [(k, v)]

/-- JS `Set.add`: append if absent. -/
def setAdd (s : List String) (x : String) : List String :=
  if x ∈ s then s else s ++ [x]

/-- JS `Math.round`: round half towards positive infinity. -/
def jsRound (q : ℚ) : ℤ := ⌊q + 1/2⌋

/-- The wallet built at lines 741-748 from leaderboard entry `e` at index `i`:
`score = Math.min(100, Math.round(pnl/100000*50 + volume/1000000*50))`,
`rank = trader.rank ?? i + 1`. -/
def mkWallet (i : Nat) (e : LeaderboardEntry) : SmartMoneyWallet :=
  { address := jsToLower e.address
    name := e.userName
    pnl := e.pnl
    volume := e.volume
    score := min 100 (jsRound (e.pnl / 100000 * 50 + e.volume / 1000000 * 50))
    rank := e.rank.getD (i + 1) }

/-- The refresh loop of `getSmartMoneyList` (lines 735-753): walk the provider
entries with their index, drop entries with `pnl < minPnl`, and for each kept
entry push the wallet onto the result list and insert it into the existing
cache map and membership set.  Note that the existing map and set are NOT
cleared first: the loop only adds/overwrites. -/
def refreshLoop (cfg : SmartMoneyConfig) (i : Nat) (entries : List LeaderboardEntry)
    (st : CacheState) : List SmartMoneyWallet × CacheState :=
  match entries with
  | [] => ([], st)
  | e :: rest =>
    if e.pnl < cfg.minPnl then refreshLoop cfg (i + 1) rest st
    else
      let w := mkWallet i e
      let st' : CacheState :=
        { st with
          smartMoneyCache := mapSet st.smartMoneyCache w.address w
          smartMoneySet := setAdd st.smartMoneySet w.address }
      let r := refreshLoop cfg (i + 1) rest st'
      (w :: r.1, r.2)

/-- Result of a `getSmartMoneyList` call: the returned list, the cache state
afterwards, and whether the leaderboard provider was called. -/
structure GetListResult where
  list : List SmartMoneyWallet
  state : CacheState
  providerCalled : Bool
deriving DecidableEq, Repr

/-- Operation `getSmartMoneyList(limit)` (lines 727-757).  `entries` is the provider's
response to `getLeaderboard(0, limit)` (so a faithful provider yields
`entries.length ≤ limit`; `limit` itself is only forwarded to the provider).
On a valid cache it returns `Array.from(this.smartMoneyCache.values())` with
no provider call; otherwise it runs the refresh loop over `entries` and
stamps `cacheTimestamp = Date.now()`. -/
def getSmartMoneyList (cfg : SmartMoneyConfig) (limit : Nat) (st : CacheState) (now : ℤ)
    (entries : List LeaderboardEntry) : GetListResult :=
  if isCacheValid cfg st now then
    { list := st.smartMoneyCache.map Prod.snd, state := st, providerCalled := false }
  else
    let r := refreshLoop cfg 0 entries st
    { list := r.1
      state := { r.2 with cacheTimestamp := now }
      providerCalled := true }

/-- Operation `isSmartMoney(address)` (lines 762-769): normalize to lower case; if the
cache is valid consult the set, otherwise refresh through
`getSmartMoneyList()` (default limit 100) and then consult the set.  Returns
the answer together with the cache state afterwards. -/
def isSmartMoney (cfg : SmartMoneyConfig) (st : CacheState) (now : ℤ)
    (entries : List LeaderboardEntry) (address : String) : Bool × CacheState :=
  let normalized := jsToLower address
  if isCacheValid cfg st now then (decide (normalized ∈ st.smartMoneySet), st)
  else
    let r := getSmartMoneyList cfg 100 st now entries
    (decide (normalized ∈ r.state.smartMoneySet), r.state)

-- ============================================================================
-- Trade subscription and filter pipeline (lines 803-885)
-- ============================================================================

/-- The per-call option set of `subscribeSmartMoneyTrades` (lines 805-809).
`filterAddresses = []` models both an absent and an empty array (both skip the
address filter); `minSize = none` models an absent `minSize` (and the code's
truthiness test also skips the filter when `minSize = 0`). -/
structure SubOptions where
  filterAddresses : List String
  minSize : Option ℚ
  smartMoneyOnly : Bool
deriving DecidableEq, Repr

/-- A raw event from the activity stream (`ActivityTrade`), with the fields
read at lines 844-876.  `traderAddress` is `trade.trader?.address`. -/
structure ActivityTrade where
  traderAddress : Option String
  traderName : Option String
  conditionId : Option String
  marketSlug : Option String
  side : Side
  size : ℚ
  price : ℚ
  asset : Option String
  outcome : Option String
  transactionHash : Option String
  timestamp : ℤ
deriving DecidableEq, Repr

/-- The normalized `SmartMoneyTrade` record (lines 112-126) built at lines
862-876. -/
structure SmartMoneyTrade where
  traderAddress : String
  traderName : Option String
  conditionId : Option String
  marketSlug : Option String
  side : Side
  size : ℚ
  price : ℚ
  tokenId : Option String
  outcome : Option String
  txHash : Option String
  timestamp : ℤ
  isSmartMoney : Bool
  smartMoneyInfo : Option SmartMoneyWallet
deriving DecidableEq, Repr

/-- JS `Map.get` on the association-list model. -/
def mapGet (m : List (String × SmartMoneyWallet)) (k : String) : Option SmartMoneyWallet :=
  (m.find? (fun p => decide (p.1 = k))).map Prod.snd

/-- The filter part of `handleActivityTrade` (lines 840-876): resolve the
trader address (drop if missing), normalize to lower case, apply the address
filter (case-insensitive, only when `filterAddresses` is non-empty), the
minimum-size filter (only when `minSize` is set and truthy), look up cohort
membership in the current set (no refresh), apply the `smartMoneyOnly` filter,
and on success build the normalized trade. Returns `none` when the event is
dropped. -/
def handleActivityTrade (options : SubOptions) (smSet : List String)
    (smCache : List (String × SmartMoneyWallet)) (t : ActivityTrade) :
    Option SmartMoneyTrade :=
  match t.traderAddress with
  | none => none
  | some raw =>
    let traderAddress := jsToLower raw
    if !options.filterAddresses.isEmpty &&
        !(decide (traderAddress ∈ options.filterAddresses.map jsToLower)) then none
    else if (match options.minSize with
             | some m => decide (m ≠ 0) && decide (t.size < m)
             | none => false) then none
    else
      let isSM := decide (traderAddress ∈ smSet)
      if options.smartMoneyOnly && !isSM then none
      else some
        { traderAddress := traderAddress
          traderName := t.traderName
          conditionId := t.conditionId
          marketSlug := t.marketSlug
          side := t.side
          size := t.size
          price := t.price
          tokenId := t.asset
          outcome := t.outcome
          txHash := t.transactionHash
          timestamp := t.timestamp
          isSmartMoney := isSM
          smartMoneyInfo := mapGet smCache traderAddress }

/-- The shared upstream subscription (`this.activeSubscription`, line 691)
together with the option set captured by the `onTrade` closure that created
it (line 820 closes over the `options` of that one `subscribeSmartMoneyTrades`
call). `subId` identifies the underlying stream subscription instance. -/
structure ActiveSub where
  subId : Nat
  capturedOpts : SubOptions
deriving DecidableEq, Repr

/-- The subscription-related mutable state of the service: the handler set
`tradeHandlers` (line 692; a JS `Set` of distinct listener closures, modelled
by distinct `Nat` identities in insertion order) and `activeSubscription`. -/
structure ServiceState where
  tradeHandlers : List Nat
  activeSubscription : Option ActiveSub
deriving DecidableEq, Repr

/-- Operation `subscribeSmartMoneyTrades` (lines 803-827): add the handler to the set;
if no upstream subscription is active, create one whose stream callback closes
over THIS call's `options`.  If one is already active, the new options are not
installed anywhere. `freshSubId` names the newly created upstream
subscription. -/
def subscribeSM (st : ServiceState) (handler : Nat) (options : SubOptions)
    (freshSubId : Nat) : ServiceState :=
  { tradeHandlers :=
      if handler ∈ st.tradeHandlers then st.tradeHandlers else st.tradeHandlers ++ [handler]
    activeSubscription :=
      match st.activeSubscription with
      | none => some { subId := freshSubId, capturedOpts := options }
      | some a => some a }

/-- The `unsubscribe` closure returned at lines 830-836 (also invoked by
`AutoCopyTradingSubscription.stop`, line 1057): delete this handler from the
set; if the set is now empty and an upstream subscription is active,
unsubscribe it and clear it.  Returns the new state together with the list of
upstream-`unsubscribe()` invocations performed (by subscription id). -/
def unsubscribeSM (st : ServiceState) (handler : Nat) : ServiceState × List Nat :=
  let hs := st.tradeHandlers.erase handler
  if hs.isEmpty then
    match st.activeSubscription with
    | some a => ({ tradeHandlers := hs, activeSubscription := none }, [a.subId])
    | none => ({ tradeHandlers := hs, activeSubscription := none }, [])
  else ({ tradeHandlers := hs, activeSubscription := st.activeSubscription }, [])

/-- The dispatch loop at lines 878-884: call every registered handler inside
`try { handler(trade) } catch { log }`, so a throwing handler (`behavior`
returning `Except.error`) is caught and iteration continues.  Returns the
handlers that were invoked, in order. -/
def dispatchTrade (behavior : Nat → SmartMoneyTrade → Except Unit Unit)
    (tr : SmartMoneyTrade) : List Nat → List Nat
  | [] => []
  | h :: rest =>
    match behavior h tr with
    | Except.ok _ => h :: dispatchTrade behavior tr rest
    | Except.error _ => h :: dispatchTrade behavior tr rest

/-- One delivery of a raw stream event to the service: the stream callback
(lines 818-825) exists only while `activeSubscription` is set and filters with
the option set captured at its creation; on success the normalized trade is
dispatched to every currently registered handler.  Returns the (unchanged)
service state and the deliveries `(handler, trade)` performed. -/
def processActivityEvent (st : ServiceState)
    (behavior : Nat → SmartMoneyTrade → Except Unit Unit) (smSet : List String)
    (smCache : List (String × SmartMoneyWallet)) (t : ActivityTrade) :
    ServiceState × List (Nat × SmartMoneyTrade) :=
  match st.activeSubscription with
  | none => (st, [])
  | some a =>
    match handleActivityTrade a.capturedOpts smSet smCache t with
    | none => (st, [])
    | some tr => (st, (dispatchTrade behavior tr st.tradeHandlers).map (fun h => (h, tr)))

-- ============================================================================
-- Auto copy trading (startAutoCopyTrading, lines 915-1060)
-- ============================================================================

/-- The per-session copy configuration after the defaults of lines 946-953
have been applied (`sizeScale ?? 0.1`, `maxSizePerTrade ?? 50`,
`maxSlippage ?? 0.03`, `minTradeSize ?? 10`, `delay ?? 0`,
`dryRun ?? false`), together with the resolved lower-cased target list built
at lines 919-929.  `orderType` is forwarded verbatim to the backend and plays
no role in the properties below, so it is omitted. -/
structure AutoCfg where
  targetAddresses : List String
  sizeScale : ℚ
  maxSizePerTrade : ℚ
  maxSlippage : ℚ
  minTradeSize : ℚ
  sideFilter : Option Side
  delay : ℚ
  dryRun : Bool
deriving DecidableEq, Repr

/-- Polymarket minimum order, the literal `MIN_ORDER_SIZE = 1` at line 989. -/
def MIN_ORDER_SIZE : ℚ := 1

/-- The sizing computation of lines 979-986: candidate
`copySize = trade.size * sizeScale`, `copyValue = copySize * trade.price`;
if `copyValue > maxSizePerTrade` clamp to
`(maxSizePerTrade / price, maxSizePerTrade)`. Returns `(copySize, copyValue)`. -/
def clampCopy (size price sizeScale maxSizePerTrade : ℚ) : ℚ × ℚ :=
  if size * sizeScale * price > maxSizePerTrade then
    (maxSizePerTrade / price, maxSizePerTrade)
  else (size * sizeScale, size * sizeScale * price)

/-- The side filter test at line 973: `sideFilter && trade.side !== sideFilter`. -/
def sideFilterMismatch : Option Side → Side → Bool
  | some s, sd => decide (sd ≠ s)
  | none, _ => false

/-- The fully specified order intent handed to
`tradingService.createMarketOrder` (lines 1026-1032): token id, side, USDC
notional (`amount`) and slippage-adjusted limit price. -/
structure OrderIntent where
  tokenId : String
  side : Side
  usdcAmount : ℚ
  limitPrice : ℚ
deriving DecidableEq, Repr

/-- Terminal classification of the decision part of the per-trade handler. -/
inductive Decision
  | notTarget
  | skipped
  | order (o : OrderIntent)
deriving DecidableEq, Repr

/-- The decision/sizing chain of the per-trade handler (lines 961-1012), in
source order: target check (early `return`, no counter), `tradeValue <
minTradeSize` skip, side-filter skip, sizing with clamp, `copyValue <
MIN_ORDER_SIZE` skip, missing-token skip, slippage-adjusted limit price
(`BUY: price * (1 + maxSlippage)`, `SELL: price * (1 - maxSlippage)`). -/
def copyDecision (cfg : AutoCfg) (t : SmartMoneyTrade) : Decision :=
  if !(decide (jsToLower t.traderAddress ∈ cfg.targetAddresses)) then Decision.notTarget
  else if t.size * t.price < cfg.minTradeSize then Decision.skipped
  else if sideFilterMismatch cfg.sideFilter t.side then Decision.skipped
  else
    let c := clampCopy t.size t.price cfg.sizeScale cfg.maxSizePerTrade
    if c.2 < MIN_ORDER_SIZE then Decision.skipped
    else
      match t.tokenId with
      | none => Decision.skipped
      | some tok =>
        Decision.order
          { tokenId := tok
            side := t.side
            usdcAmount := c.2
            limitPrice :=
              if t.side = Side.BUY then t.price * (1 + cfg.maxSlippage)
              else t.price * (1 - cfg.maxSlippage) }

/-- Whether the handler invokes the trading backend for this trade
(lines 1017-1033): only when an order is reached and `dryRun` is false. -/
def callsBackend (cfg : AutoCfg) (t : SmartMoneyTrade) : Bool :=
  match copyDecision cfg t with
  | Decision.order _ => !cfg.dryRun
  | _ => false

/-- Behaviour of one `createMarketOrder` backend call: resolves with
`success: true`, resolves with `success: false`, or throws. -/
inductive Backend
  | ok
  | rejected
  | throws
deriving DecidableEq, Repr

/-- Structure `AutoCopyTradingStats` (lines 164-171, initialised at lines 936-943).
`startTime` plays no role in the claims and is omitted. -/
structure Stats where
  tradesDetected : Nat
  tradesExecuted : Nat
  tradesSkipped : Nat
  tradesFailed : Nat
  totalUsdcSpent : ℚ
deriving DecidableEq, Repr

/-- The all-zero stats record created at session start (lines 936-943). -/
def initStats : Stats := ⟨0, 0, 0, 0, 0⟩

/-- One atomic mutation of the session stats performed by the per-trade
handler: `tradesDetected++` (line 958), `tradesSkipped++`,
`tradesExecuted++; totalUsdcSpent += usdc` (lines 1035-1037, one synchronous
segment), or `tradesFailed++`. -/
inductive Act
  | detect
  | skipAct
  | exec (usdc : ℚ)
  | failAct
deriving DecidableEq, Repr

/-- Apply one stats mutation. -/
def applyAct (s : Stats) : Act → Stats
  | Act.detect => { s with tradesDetected := s.tradesDetected + 1 }
  | Act.skipAct => { s with tradesSkipped := s.tradesSkipped + 1 }
  | Act.exec u =>
    { s with tradesExecuted := s.tradesExecuted + 1, totalUsdcSpent := s.totalUsdcSpent + u }
  | Act.failAct => { s with tradesFailed := s.tradesFailed + 1 }

/-- Apply a sequence of stats mutations in order. -/
def applyTrace (s : Stats) (l : List Act) : Stats := l.foldl applyAct s

/-- The sequence of stats mutations performed by the per-trade handler
(lines 957-1046) for one delivered trade, as a function of the copy decision,
the backend behaviour, and whether the user-supplied `onTrade` callback
throws.  `tradesDetected++` always happens first; a skip decision increments
`tradesSkipped`; an order either succeeds (`tradesExecuted++`,
`totalUsdcSpent += usdc` — synthesized locally under `dryRun`, otherwise from
the backend result), is rejected (`tradesFailed++`), or the backend throws
(caught at line 1043, `tradesFailed++`, `onTrade` never runs).  Because the
`catch` at lines 1043-1046 wraps the `onTrade` call too, a throwing callback
adds a further `tradesFailed++` after the outcome was already counted. -/
def eventTrace (cfg : AutoCfg) (backend : Backend) (cbThrows : Bool)
    (t : SmartMoneyTrade) : List Act :=
  match copyDecision cfg t with
  | Decision.notTarget => [Act.detect]
  | Decision.skipped => [Act.detect, Act.skipAct]
  | Decision.order o =>
    if cfg.dryRun then
      [Act.detect, Act.exec o.usdcAmount] ++ (if cbThrows then [Act.failAct] else [])
    else
      match backend with
      | Backend.throws => [Act.detect, Act.failAct]
      | Backend.ok =>
        [Act.detect, Act.exec o.usdcAmount] ++ (if cbThrows then [Act.failAct] else [])
      | Backend.rejected =>
        [Act.detect, Act.failAct] ++ (if cbThrows then [Act.failAct] else [])

/-- One trade event delivered to the auto-copy handler, with the session
config and the environment behaviour it meets. -/
structure CopyEvent where
  cfg : AutoCfg
  backend : Backend
  cbThrows : Bool
  trade : SmartMoneyTrade

/-- The stats-mutation trace of one event. -/
def traceOf (e : CopyEvent) : List Act := eventTrace e.cfg e.backend e.cbThrows e.trade

/-- Relation `Merge ls m`: `m` is an interleaving of the traces in `ls` that preserves
the order within each trace.  This over-approximates the single-threaded
event-loop schedules in which independently in-flight handler invocations
interleave at their suspension points (the optional delay and the backend
call) and complete out of order. -/
inductive Merge : List (List Act) → List Act → Prop
  | done (ls : List (List Act)) (h : ∀ l ∈ ls, l = []) : Merge ls []
  | step (l₁ l₂ : List (List Act)) (a : Act) (rest m : List Act)
      (hm : Merge (l₁ ++ rest :: l₂) m) :
      Merge (l₁ ++ (a :: rest) :: l₂) (a :: m)

/-- Sum of the terminal counters. -/
def termSum (s : Stats) : Nat := s.tradesSkipped + s.tradesExecuted + s.tradesFailed

/-- The session-stats invariant claimed by the spec:
`tradesDetected ≥ tradesSkipped + tradesExecuted + tradesFailed`. -/
def statsOK (s : Stats) : Prop := termSum s ≤ s.tradesDetected

instance (s : Stats) : Decidable (statsOK s) := Nat.decLe _ _

/-- Componentwise comparison of stats: every counter and the cumulative spend
of `s` is at most that of `t` ("no counter ever decreases"). -/
def statsLE (s t : Stats) : Prop :=
  s.tradesDetected ≤ t.tradesDetected ∧ s.tradesExecuted ≤ t.tradesExecuted ∧
  s.tradesSkipped ≤ t.tradesSkipped ∧ s.tradesFailed ≤ t.tradesFailed ∧
  s.totalUsdcSpent ≤ t.totalUsdcSpent

/-- Is this mutation the leading `tradesDetected++`? -/
def isDetect : Act → Bool
  | Act.detect => true
  | _ => false

/-- Number of terminal-counter mutations (skip/exec/fail) in a trace. -/
def termCount (l : List Act) : Nat := (l.filter (fun a => !isDetect a)).length

/-- Terminal mutations a pending suffix may still perform whose matching
`tradesDetected++` has already been applied (0 for a suffix still headed by
its detect). -/
def debt : List Act → Nat
  | Act.detect :: _ => 0
  | l => termCount l

/-- Total debt of a collection of pending suffixes. -/
def Dsum (ls : List (List Act)) : Nat := (ls.map debt).sum

/-- A trace tail: no further detect, at most one terminal mutation. -/
def wfTail (l : List Act) : Prop := (∀ a ∈ l, isDetect a = false) ∧ termCount l ≤ 1

/-- A full handler trace: one leading detect, then a tail. -/
def wfTrace (l : List Act) : Prop := ∃ tl, l = Act.detect :: tl ∧ wfTail tl

/-- A suffix of a handler trace reachable during an interleaved run. -/
def wfSuffix (l : List Act) : Prop := wfTrace l ∨ wfTail l

/-- Spend increments are non-negative (true of every trace the handler emits,
since orders below `MIN_ORDER_SIZE` are skipped). -/
def actOK : Act → Prop
  | Act.exec u => 0 ≤ u
  | _ => True

-- ============================================================================
-- Live stats reference vs. snapshot (lines 1051-1059)
-- ============================================================================

/-- A store of stats records addressed by reference, modelling JS object
identity: the session's `stats` object lives at one reference which both the
handler closure and the returned `subscription.stats` field alias, while
`getStats: () => ({ ...stats })` (line 1058) allocates a fresh record. -/
abbrev StatsHeap := Nat → Stats

/-- Read the record at reference `r`. -/
def readRef (h : StatsHeap) (r : Nat) : Stats := h r

/-- Overwrite the record at reference `r`. -/
def writeRef (h : StatsHeap) (r : Nat) (v : Stats) : StatsHeap :=
  fun x => if x = r then v else h x

/-- A completed trade event mutates the live stats record in place through the
reference the handler closure captured (lines 958-1040). -/
def completeTradeOnHeap (h : StatsHeap) (live : Nat) (e : CopyEvent) : StatsHeap :=
  writeRef h live (applyTrace (readRef h live) (traceOf e))

/-- Operation `getStats()` (line 1058): copy the live record into a freshly allocated
one at `fresh`. -/
def getStatsCopy (h : StatsHeap) (live fresh : Nat) : StatsHeap :=
  writeRef h fresh (readRef h live)

/-- The per-cache invariant that every stored wallet passed the configured
minimum-PnL threshold (all insertions happen at line 739 behind the
`trader.pnl < this.config.minPnl` guard and the config is fixed at
construction). -/
def cacheGood (cfg : SmartMoneyConfig) (st : CacheState) : Prop :=
  ∀ p ∈ st.smartMoneyCache, cfg.minPnl ≤ p.2.pnl

-- ============================================================================
-- Concrete fixtures used in example-level theorems and witnesses
-- ============================================================================

/-- The default service config: `minPnl = 1000`, `cacheTtl = 300000`. -/
def cfgDefault : SmartMoneyConfig := ⟨1000, 300000⟩

/-- Leaderboard entry present in refresh #1 only. -/
def eA : LeaderboardEntry := ⟨"0xAAAA", none, 5000, 0, none⟩

/-- Leaderboard entry present in refresh #2 only. -/
def eB : LeaderboardEntry := ⟨"0xBBBB", none, 7000, 0, none⟩

/-- Leaderboard entries for the limit counterexample. -/
def e1 : LeaderboardEntry := ⟨"0xCCCC", none, 2000, 0, none⟩

/-- Second leaderboard entry for the limit counterexample. -/
def e2 : LeaderboardEntry := ⟨"0xDDDD", none, 3000, 0, none⟩

/-- Cache state after refresh #1 (provider response `[eA]`, time 0). -/
def st1 : CacheState := (getSmartMoneyList cfgDefault 10 emptyCache 0 [eA]).state

/-- The second `getSmartMoneyList` call: at time 400000 (cache stale) the
provider responds `[eB]` — `eA`'s wallet is absent from this response. -/
def r2 : GetListResult := getSmartMoneyList cfgDefault 10 st1 400000 [eB]

/-- Cache state after refresh #2. -/
def st2 : CacheState := r2.state

/-- A `getSmartMoneyList` read just after refresh #2 (cache valid, no
provider data consumed). -/
def r3 : GetListResult := getSmartMoneyList cfgDefault 10 st2 400001 []

/-- Cache state seeded by a refresh with `limit = 2` and two qualifying
entries. -/
def stL : CacheState := (getSmartMoneyList cfgDefault 2 emptyCache 0 [e1, e2]).state

/-- A `getSmartMoneyList(1)` call against the still-valid two-entry cache. -/
def rL : GetListResult := getSmartMoneyList cfgDefault 1 stL 1 []

/-- Listener options from the spec's filter example: `filterAddresses = ['0xAAA']`. -/
def optsA : SubOptions := ⟨["0xAAA"], none, false⟩

/-- Listener options of a second subscriber: `filterAddresses = ['0xbbb']`. -/
def optsB : SubOptions := ⟨["0xbbb"], none, false⟩

/-- Raw stream event from trader `0xbbb`. -/
def evBad : ActivityTrade :=
  ⟨some "0xbbb", none, none, none, Side.BUY, 5, 1, some "tokB", none, none, 0⟩

/-- Raw stream event from trader `0xAaA` (mixed case). -/
def evGood : ActivityTrade :=
  ⟨some "0xAaA", none, none, none, Side.BUY, 5, 1, some "tokA", none, none, 0⟩

/-- The normalized trade produced from `evBad` (membership sets empty). -/
def trBad : SmartMoneyTrade :=
  ⟨"0xbbb", none, none, none, Side.BUY, 5, 1, some "tokB", none, none, 0, false, none⟩

/-- A listener behaviour with no exceptions. -/
def behaviorOk : Nat → SmartMoneyTrade → Except Unit Unit := fun _ _ => Except.ok ()

/-- A listener behaviour where listener 1 throws on every trade. -/
def behaviorThrow1 : Nat → SmartMoneyTrade → Except Unit Unit :=
  fun h _ => if h = 1 then Except.error () else Except.ok ()

/-- Service state after listener 1 subscribes with `optsA` and then listener 2
subscribes with `optsB`. -/
def stC3 : ServiceState := subscribeSM (subscribeSM ⟨[], none⟩ 1 optsA 500) 2 optsB 501

/-- Service state with two registered listeners and an active upstream
subscription that captured `optsB`. -/
def stC8 : ServiceState := ⟨[1, 2], some ⟨500, optsB⟩⟩

/-- Service state with one registered listener. -/
def stC9 : ServiceState := ⟨[7], some ⟨42, optsA⟩⟩

/-- A resolved dry-run auto-copy config: `sizeScale = 0.1`,
`maxSizePerTrade = 50`, `maxSlippage = 0.03`, `minTradeSize = 10`,
no side filter, no delay, `dryRun = true`, following target `0xaaaa`. -/
def cfgCopy : AutoCfg := ⟨["0xaaaa"], 1/10, 50, 3/100, 10, none, 0, true⟩

/-- A qualifying source trade: BUY 100 @ 0.60 from target `0xaaaa`. -/
def trCopy : SmartMoneyTrade :=
  ⟨"0xaaaa", none, none, some "mkt", Side.BUY, 100, 6/10, some "tok123", none, none, 0, true, none⟩

/-- The qualifying dry-run event with a well-behaved callback. -/
def evW : CopyEvent := ⟨cfgCopy, Backend.ok, false, trCopy⟩

/-- A heap whose every reference holds the zero stats record. -/
def hW : StatsHeap := fun _ => initStats

end SmartMoney

-- ============================================================================
-- Theorems
-- ============================================================================

namespace SmartMoney

/-- The clamped notional never exceeds the bound. -/
theorem clampCopy_snd_le (size price scale maxS : ℚ) :
    (clampCopy size price scale maxS).2 ≤ maxS := by
  unfold clampCopy
  split
  · simp
  · next h => simpa using le_of_not_lt h

/-- Inversion of `copyDecision` on the order branch: the order carries the
clamped notional (hence at least `MIN_ORDER_SIZE` and at most
`maxSizePerTrade`), the source side, and the slippage-adjusted limit price. -/
theorem copyDecision_order_inv (cfg : AutoCfg) (t : SmartMoneyTrade) (o : OrderIntent)
    (h : copyDecision cfg t = Decision.order o) :
    MIN_ORDER_SIZE ≤ o.usdcAmount ∧
    o.usdcAmount ≤ cfg.maxSizePerTrade ∧
    o.side = t.side ∧
    o.usdcAmount = (clampCopy t.size t.price cfg.sizeScale cfg.maxSizePerTrade).2 ∧
    o.limitPrice = (if t.side = Side.BUY then t.price * (1 + cfg.maxSlippage)
                    else t.price * (1 - cfg.maxSlippage)) := by
  simp only [copyDecision] at h
  split_ifs at h with h1 h2 h3 h4 h5 <;>
    rcases htok : t.tokenId with _ | tok <;> rw [htok] at h
  · exact absurd h (by simp)
  · have ho := Decision.order.inj h
    subst ho
    exact ⟨le_of_not_lt h4, clampCopy_snd_le _ _ _ _, rfl, rfl, by rw [if_pos h5]⟩
  · exact absurd h (by simp)
  · have ho := Decision.order.inj h
    subst ho
    exact ⟨le_of_not_lt h4, clampCopy_snd_le _ _ _ _, rfl, rfl, by rw [if_neg h5]⟩

/-- The copy decision on the fixture trade: a BUY order for the full clamped
notional 6 USDC with limit price 0.618. -/
theorem copyDecision_fixture :
    copyDecision cfgCopy trCopy = Decision.order ⟨"tok123", Side.BUY, 6, 618/1000⟩ := by
  have h1 : jsToLower "0xaaaa" = "0xaaaa" := by decide
  norm_num [copyDecision, cfgCopy, trCopy, h1, sideFilterMismatch, clampCopy, MIN_ORDER_SIZE]

/-- C5 (confirmed): for every source trade and resolved config the replica
notional computed by the handler never exceeds `maxSizePerTrade`; when the
candidate notional `size * sizeScale * price` exceeds `maxSizePerTrade` the
sizing yields `(maxSizePerTrade / price, maxSizePerTrade)`, otherwise the
unclamped pair; and every order intent the decision step emits has
`usdcAmount ≤ maxSizePerTrade`. -/
theorem sizing_clamp :
    (∀ size price scale maxS : ℚ,
      (clampCopy size price scale maxS).2 ≤ maxS ∧
      (size * scale * price > maxS →
        clampCopy size price scale maxS = (maxS / price, maxS)) ∧
      (¬ size * scale * price > maxS →
        clampCopy size price scale maxS = (size * scale, size * scale * price))) ∧
    (∀ (cfg : AutoCfg) (t : SmartMoneyTrade) (o : OrderIntent),
      copyDecision cfg t = Decision.order o → o.usdcAmount ≤ cfg.maxSizePerTrade) := by
  constructor
  · intro size price scale maxS
    refine ⟨clampCopy_snd_le _ _ _ _, ?_, ?_⟩
    · intro hgt
      simp [clampCopy, hgt]
    · intro hle
      simp [clampCopy, hle]
  · intro cfg t o h
    exact (copyDecision_order_inv cfg t o h).2.1

/-- Witness for C5 at a clamping input: source size 1000 at price 1/2 with
scale 1 and cap 50 produces the clamped pair `(100, 50)`, and the fixture
order's notional respects the cap. -/
theorem sizing_clamp_w :
    clampCopy 1000 (1/2) 1 50 = (100, 50) ∧ (6 : ℚ) ≤ 50 := by
  constructor
  · have h := (sizing_clamp.1 1000 (1/2) 1 50).2.1 (by norm_num)
    rw [h]
    norm_num
  · have h := sizing_clamp.2 cfgCopy trCopy ⟨"tok123", Side.BUY, 6, 618/1000⟩ copyDecision_fixture
    simpa [cfgCopy] using h

/-- C6 (confirmed): every order intent produced by the decision step carries
the limit price `price * (1 + maxSlippage)` on BUY and
`price * (1 - maxSlippage)` on SELL; on the fixture (price 0.60, BUY,
slippage 0.03) the computed limit price is exactly 0.618. -/
theorem slippage_limit_price :
    (∀ (cfg : AutoCfg) (t : SmartMoneyTrade) (o : OrderIntent),
      copyDecision cfg t = Decision.order o →
      o.limitPrice = (if t.side = Side.BUY then t.price * (1 + cfg.maxSlippage)
                      else t.price * (1 - cfg.maxSlippage))) ∧
    copyDecision cfgCopy trCopy = Decision.order ⟨"tok123", Side.BUY, 6, 618/1000⟩ := by
  refine ⟨?_, copyDecision_fixture⟩
  intro cfg t o h
  exact (copyDecision_order_inv cfg t o h).2.2.2.2

/-- Witness for C6: on the fixture order the limit price produced by the
decision equals the BUY formula `0.60 * (1 + 0.03) = 0.618`. -/
theorem slippage_limit_price_w :
    (OrderIntent.mk "tok123" Side.BUY 6 (618/1000)).limitPrice =
      (if trCopy.side = Side.BUY then trCopy.price * (1 + cfgCopy.maxSlippage)
       else trCopy.price * (1 - cfgCopy.maxSlippage)) :=
  slippage_limit_price.1 cfgCopy trCopy _ copyDecision_fixture

/-- C7 (confirmed): when `dryRun` is true, a trade that reaches an order
intent increments `tradesExecuted` by exactly one, adds the replica notional
to `totalUsdcSpent`, and the trading backend is never invoked, for any
backend behaviour and whether or not the user callback throws. -/
theorem dry_run_behavior (cfg : AutoCfg) (b : Backend) (cb : Bool)
    (t : SmartMoneyTrade) (s : Stats) (o : OrderIntent)
    (hdry : cfg.dryRun = true) (hord : copyDecision cfg t = Decision.order o) :
    (applyTrace s (eventTrace cfg b cb t)).tradesExecuted = s.tradesExecuted + 1 ∧
    (applyTrace s (eventTrace cfg b cb t)).totalUsdcSpent = s.totalUsdcSpent + o.usdcAmount ∧
    callsBackend cfg t = false := by
  unfold eventTrace callsBackend
  rw [hord]
  cases cb <;> simp [hdry, applyTrace, applyAct]

/-- Witness for C7: the fixture dry-run event increments `tradesExecuted`
from 0 to 1, spends the notional 6, and does not call the backend. -/
theorem dry_run_behavior_w :
    (applyTrace initStats (eventTrace cfgCopy Backend.ok false trCopy)).tradesExecuted =
      initStats.tradesExecuted + 1 ∧
    (applyTrace initStats (eventTrace cfgCopy Backend.ok false trCopy)).totalUsdcSpent =
      initStats.totalUsdcSpent + (OrderIntent.mk "tok123" Side.BUY 6 (618/1000)).usdcAmount ∧
    callsBackend cfgCopy trCopy = false :=
  dry_run_behavior cfgCopy Backend.ok false trCopy initStats _ rfl copyDecision_fixture

/-- The try/catch dispatch loop invokes every handler in order, whatever each
handler's behaviour. -/
theorem dispatchTrade_eq_self (behavior : Nat → SmartMoneyTrade → Except Unit Unit)
    (tr : SmartMoneyTrade) : ∀ hs : List Nat, dispatchTrade behavior tr hs = hs := by
  intro hs
  induction hs with
  | nil => rfl
  | cons h rest ih =>
    unfold dispatchTrade
    cases behavior h tr <;> simp [ih]

/-- Processing a stream event never changes the subscription state. -/
theorem processActivityEvent_fst (st : ServiceState)
    (behavior : Nat → SmartMoneyTrade → Except Unit Unit) (smSet : List String)
    (smCache : List (String × SmartMoneyWallet)) (t : ActivityTrade) :
    (processActivityEvent st behavior smSet smCache t).1 = st := by
  unfold processActivityEvent
  split
  · rfl
  · split <;> rfl

/-- C8 (confirmed): if the event passes the active subscription's filter,
then whatever exceptions individual listeners throw (`behavior` is
arbitrary), every currently registered listener receives the same normalized
trade, the service state — including the shared upstream subscription — is
unchanged, and processing of any subsequent event proceeds exactly as it
would have from the original state. -/
theorem listener_isolation (st : ServiceState)
    (behavior : Nat → SmartMoneyTrade → Except Unit Unit) (smSet : List String)
    (smCache : List (String × SmartMoneyWallet)) (t : ActivityTrade)
    (a : ActiveSub) (tr : SmartMoneyTrade)
    (hact : st.activeSubscription = some a)
    (hfil : handleActivityTrade a.capturedOpts smSet smCache t = some tr) :
    (processActivityEvent st behavior smSet smCache t).1 = st ∧
    (∀ hid ∈ st.tradeHandlers,
      (hid, tr) ∈ (processActivityEvent st behavior smSet smCache t).2) ∧
    (∀ (behavior₂ : Nat → SmartMoneyTrade → Except Unit Unit) smSet₂ smCache₂
        (t₂ : ActivityTrade),
      processActivityEvent (processActivityEvent st behavior smSet smCache t).1
          behavior₂ smSet₂ smCache₂ t₂ =
        processActivityEvent st behavior₂ smSet₂ smCache₂ t₂) := by
  refine ⟨processActivityEvent_fst _ _ _ _ _, ?_, ?_⟩
  · intro hid hmem
    simp only [processActivityEvent, hact, hfil, dispatchTrade_eq_self]
    exact List.mem_map.mpr ⟨hid, hmem, rfl⟩
  · intro behavior₂ smSet₂ smCache₂ t₂
    rw [processActivityEvent_fst]

/-- Witness for C8: in a state with listeners 1 and 2 where listener 1 throws,
listener 2 still receives the normalized trade built from `evBad`, and the
state survives unchanged. -/
theorem listener_isolation_w :
    (processActivityEvent stC8 behaviorThrow1 [] [] evBad).1 = stC8 ∧
    ((2, trBad) ∈ (processActivityEvent stC8 behaviorThrow1 [] [] evBad).2) := by
  have h := listener_isolation stC8 behaviorThrow1 [] [] evBad ⟨500, optsB⟩ trBad rfl (by decide)
  exact ⟨h.1, h.2.1 2 (by decide)⟩

/-- C9 (confirmed): with a duplicate-free handler set (a JS `Set` of distinct
listener closures), a second `stop()`/`unsubscribe()` of the same handler is a
no-op — the handler set, the shared upstream subscription (including one still
serving other listeners), and the upstream-unsubscribe log are unchanged —
and a single teardown invokes the upstream `unsubscribe()` at most once. -/
theorem stop_idempotent (st : ServiceState) (handler : Nat)
    (hnd : st.tradeHandlers.Nodup) :
    unsubscribeSM (unsubscribeSM st handler).1 handler = ((unsubscribeSM st handler).1, []) ∧
    (unsubscribeSM st handler).2.length ≤ 1 := by
  have hne : handler ∉ st.tradeHandlers.erase handler := hnd.not_mem_erase
  have herase : (st.tradeHandlers.erase handler).erase handler =
      st.tradeHandlers.erase handler := List.erase_of_not_mem hne
  unfold unsubscribeSM
  by_cases hemp : (st.tradeHandlers.erase handler).isEmpty
  · rcases hsub : st.activeSubscription with _ | a <;>
      simp [hsub, hemp, herase]
  · rcases hsub : st.activeSubscription with _ | a <;>
      simp [hsub, hemp, herase]

/-- Witness for C9: stopping the only subscription of `stC9` twice equals
stopping it once with no further upstream unsubscribe, and the first stop
unsubscribed upstream at most once. -/
theorem stop_idempotent_w :
    unsubscribeSM (unsubscribeSM stC9 7).1 7 = ((unsubscribeSM stC9 7).1, []) ∧
    (unsubscribeSM stC9 7).2.length ≤ 1 :=
  stop_idempotent stC9 7 (by decide)

/-- C10 (confirmed): the subscription's `stats` field aliases the live
record — a later completed trade event is observable through the same
reference — while each `getStats()` snapshot is a fresh record whose external
mutation changes neither the live record nor the contents of a later
snapshot. -/
theorem stats_live_reference (h : StatsHeap) (live fresh : Nat) (e : CopyEvent)
    (v : Stats) (hne : fresh ≠ live) :
    readRef (completeTradeOnHeap h live e) live =
      applyTrace (readRef h live) (traceOf e) ∧
    readRef (writeRef (getStatsCopy h live fresh) fresh v) live = readRef h live ∧
    (∀ fresh2 : Nat,
      readRef (getStatsCopy (writeRef (getStatsCopy h live fresh) fresh v) live fresh2) fresh2 =
        readRef h live) := by
  have hne' : live ≠ fresh := Ne.symm hne
  refine ⟨?_, ?_, ?_⟩
  · simp [completeTradeOnHeap, readRef, writeRef]
  · simp [getStatsCopy, readRef, writeRef, hne']
  · intro fresh2
    simp [getStatsCopy, readRef, writeRef, hne']

/-- Witness for C10 at references live = 0, fresh = 1 on the zero heap. -/
theorem stats_live_reference_w :
    readRef (completeTradeOnHeap hW 0 evW) 0 = applyTrace (readRef hW 0) (traceOf evW) ∧
    readRef (writeRef (getStatsCopy hW 0 1) 1 initStats) 0 = readRef hW 0 ∧
    (∀ fresh2 : Nat,
      readRef (getStatsCopy (writeRef (getStatsCopy hW 0 1) 1 initStats) 0 fresh2) fresh2 =
        readRef hW 0) :=
  stats_live_reference hW 0 1 evW initStats (by decide)

/-- C3 (counterexample): the claim that each listener is filtered by the
option set it itself supplied is false.  Listener 2 subscribed with
`filterAddresses = ['0xbbb']`; the event from `0xbbb` passes listener 2's own
option set, listener 2 is registered, and yet nothing is delivered to anyone,
because the shared stream callback filters with the options captured by
listener 1's earlier subscribe call (`filterAddresses = ['0xAAA']`). -/
theorem per_listener_options_counterexample :
    (2 ∈ stC3.tradeHandlers) ∧
    ((handleActivityTrade optsB [] [] evBad).isSome = true) ∧
    (stC3.activeSubscription = some ⟨500, optsA⟩) ∧
    ((processActivityEvent stC3 behaviorOk [] [] evBad).2 = []) := by
  refine ⟨by decide, by decide, by decide, ?_⟩
  have h1 : handleActivityTrade optsA [] [] evBad = none := by decide
  have h2 : stC3 = ⟨[1, 2], some ⟨500, optsA⟩⟩ := by decide
  rw [h2]
  simp [processActivityEvent, h1]

/-- C3 (amended theorem): a registered listener receives a normalized trade
exactly when the event passes the option set captured by the subscribe call
that created the currently active shared subscription (not the listener's own
options); within that one option set the rules of the filter chain hold: an
event with no resolvable trader address is always dropped, a non-empty
`filterAddresses` drops case-insensitive non-members, a truthy `minSize`
drops smaller trades, `smartMoneyOnly` drops non-members of the cohort set;
and with active options `filterAddresses = ['0xAAA']` an event from `0xbbb`
is dropped while an event from `0xAaA` passes. -/
theorem filter_uses_captured_options :
    (∀ (st : ServiceState) (behavior : Nat → SmartMoneyTrade → Except Unit Unit)
        (smSet : List String) (smCache : List (String × SmartMoneyWallet))
        (t : ActivityTrade) (hid : Nat) (tr : SmartMoneyTrade),
      ((hid, tr) ∈ (processActivityEvent st behavior smSet smCache t).2 ↔
        hid ∈ st.tradeHandlers ∧ ∃ a, st.activeSubscription = some a ∧
          handleActivityTrade a.capturedOpts smSet smCache t = some tr)) ∧
    (∀ (options : SubOptions) smSet smCache (t : ActivityTrade),
      t.traderAddress = none → handleActivityTrade options smSet smCache t = none) ∧
    (∀ (options : SubOptions) smSet smCache (t : ActivityTrade) (raw : String),
      t.traderAddress = some raw → options.filterAddresses ≠ [] →
      jsToLower raw ∉ options.filterAddresses.map jsToLower →
      handleActivityTrade options smSet smCache t = none) ∧
    (∀ (options : SubOptions) smSet smCache (t : ActivityTrade) (m : ℚ),
      options.minSize = some m → m ≠ 0 → t.size < m →
      handleActivityTrade options smSet smCache t = none) ∧
    (∀ (options : SubOptions) smSet smCache (t : ActivityTrade) (raw : String),
      t.traderAddress = some raw → options.smartMoneyOnly = true →
      jsToLower raw ∉ smSet →
      handleActivityTrade options smSet smCache t = none) ∧
    (handleActivityTrade optsA [] [] evBad = none) ∧
    ((handleActivityTrade optsA [] [] evGood).isSome = true) := by
  refine ⟨?_, ?_, ?_, ?_, ?_, by decide, by decide⟩
  · intro st behavior smSet smCache t hid tr
    rcases hact : st.activeSubscription with _ | a
    · simp [processActivityEvent, hact]
    · rcases hfil : handleActivityTrade a.capturedOpts smSet smCache t with _ | tr'
      · simp [processActivityEvent, hact, hfil]
      · simp [processActivityEvent, hact, hfil, dispatchTrade_eq_self, List.mem_map,
          Prod.ext_iff]
        aesop
  · intro options smSet smCache t h
    simp [handleActivityTrade, h]
  · intro options smSet smCache t raw hraw hne hnm
    simp [handleActivityTrade, hraw, hne, hnm]
  · intro options smSet smCache t m hm hm0 hsz
    rcases hraw : t.traderAddress with _ | raw
    · simp [handleActivityTrade, hraw]
    · simp [handleActivityTrade, hraw, hm, hm0, hsz]
  · intro options smSet smCache t raw hraw hsm hnm
    simp [handleActivityTrade, hraw, hsm, hnm]

/-- Witness for C3: instantiating the characterisation at the two-listener
state delivers the normalized trade to listener 2 when the event passes the
captured (creating subscriber's) option set. -/
theorem filter_uses_captured_options_w :
    (2, trBad) ∈ (processActivityEvent stC8 behaviorOk [] [] evBad).2 :=
  (filter_uses_captured_options.1 stC8 behaviorOk [] [] evBad 2 trBad).mpr
    ⟨by decide, ⟨500, optsB⟩, rfl, by decide⟩

/-- Membership after a JS `Set.add`. -/
theorem setAdd_mem (s : List String) (x a : String) :
    a ∈ setAdd s x ↔ a ∈ s ∨ a = x := by
  unfold setAdd
  split
  · next hx =>
    constructor
    · exact Or.inl
    · rintro (h | rfl)
      · exact h
      · exact hx
  · simp [List.mem_append]

/-- Every pair in a JS `Map.set` result is an old pair or the new binding. -/
theorem mapSet_mem (m : List (String × SmartMoneyWallet)) (k : String)
    (v : SmartMoneyWallet) (p : String × SmartMoneyWallet) (hp : p ∈ mapSet m k v) :
    p ∈ m ∨ p = (k, v) := by
  unfold mapSet at hp
  split at hp
  · rcases List.mem_map.mp hp with ⟨q, hq, hqe⟩
    by_cases h : q.1 = k
    · right
      rw [if_pos h] at hqe
      exact hqe.symm
    · left
      rw [if_neg h] at hqe
      exact hqe ▸ hq
  · rcases List.mem_append.mp hp with h | h
    · exact Or.inl h
    · right
      simpa using h

/-- The membership set after the refresh loop is the union of the previous
set and the lower-cased addresses of the qualifying provider entries. -/
theorem refreshLoop_set_mem (cfg : SmartMoneyConfig) (a : String) :
    ∀ (entries : List LeaderboardEntry) (i : Nat) (st : CacheState),
      (a ∈ ((refreshLoop cfg i entries st).2).smartMoneySet ↔
        a ∈ st.smartMoneySet ∨ ∃ e ∈ entries, cfg.minPnl ≤ e.pnl ∧ jsToLower e.address = a) := by
  intro entries
  induction entries with
  | nil => intro i st; simp [refreshLoop]
  | cons e rest ih =>
    intro i st
    by_cases hp : e.pnl < cfg.minPnl
    · have hnp : ¬ cfg.minPnl ≤ e.pnl := not_le.mpr hp
      simp [refreshLoop, hp, ih, hnp]
    · have hnp : cfg.minPnl ≤ e.pnl := not_lt.mp hp
      simp only [refreshLoop, if_neg hp]
      rw [ih]
      simp only [mkWallet]
      rw [setAdd_mem]
      constructor
      · rintro ((h | rfl) | ⟨e', he', hP⟩)
        · exact Or.inl h
        · exact Or.inr ⟨e, List.mem_cons_self e rest, hnp, rfl⟩
        · exact Or.inr ⟨e', List.mem_cons_of_mem _ he', hP⟩
      · rintro (h | ⟨e', he', hP⟩)
        · exact Or.inl (Or.inl h)
        · rcases List.mem_cons.mp he' with rfl | hr
          · exact Or.inl (Or.inr hP.2.symm)
          · exact Or.inr ⟨e', hr, hP⟩

/-- Every wallet the refresh loop returns meets the minimum-PnL threshold. -/
theorem refreshLoop_list_pnl (cfg : SmartMoneyConfig) :
    ∀ (entries : List LeaderboardEntry) (i : Nat) (st : CacheState),
      ∀ w ∈ (refreshLoop cfg i entries st).1, cfg.minPnl ≤ w.pnl := by
  intro entries
  induction entries with
  | nil =>
    intro i st w hw
    simp [refreshLoop] at hw
  | cons e rest ih =>
    intro i st w hw
    by_cases hp : e.pnl < cfg.minPnl
    · simp only [refreshLoop, if_pos hp] at hw
      exact ih _ _ w hw
    · simp only [refreshLoop, if_neg hp] at hw
      rcases List.mem_cons.mp hw with rfl | hw'
      · exact not_lt.mp hp
      · exact ih _ _ w hw'

/-- The refresh list is no longer than the provider response. -/
theorem refreshLoop_list_len (cfg : SmartMoneyConfig) :
    ∀ (entries : List LeaderboardEntry) (i : Nat) (st : CacheState),
      (refreshLoop cfg i entries st).1.length ≤ entries.length := by
  intro entries
  induction entries with
  | nil => intro i st; simp [refreshLoop]
  | cons e rest ih =>
    intro i st
    by_cases hp : e.pnl < cfg.minPnl
    · simp only [refreshLoop, if_pos hp]
      exact (ih _ _).trans (Nat.le_succ _)
    · simp only [refreshLoop, if_neg hp, List.length_cons]
      exact Nat.succ_le_succ (ih _ _)

/-- The refresh list preserves the provider's order: its addresses form a
sublist of the response's lower-cased addresses. -/
theorem refreshLoop_list_sublist (cfg : SmartMoneyConfig) :
    ∀ (entries : List LeaderboardEntry) (i : Nat) (st : CacheState),
      ((refreshLoop cfg i entries st).1.map SmartMoneyWallet.address).Sublist
        (entries.map (fun e => jsToLower e.address)) := by
  intro entries
  induction entries with
  | nil => intro i st; simp [refreshLoop]
  | cons e rest ih =>
    intro i st
    by_cases hp : e.pnl < cfg.minPnl
    · simp only [refreshLoop, if_pos hp, List.map_cons]
      exact (ih _ _).cons _
    · simp only [refreshLoop, if_neg hp, List.map_cons]
      exact (ih _ _).cons₂ _

/-- The refresh loop preserves the cache threshold invariant. -/
theorem refreshLoop_cacheGood (cfg : SmartMoneyConfig) :
    ∀ (entries : List LeaderboardEntry) (i : Nat) (st : CacheState),
      cacheGood cfg st → cacheGood cfg (refreshLoop cfg i entries st).2 := by
  intro entries
  induction entries with
  | nil => intro i st hg; simpa [refreshLoop] using hg
  | cons e rest ih =>
    intro i st hg
    by_cases hp : e.pnl < cfg.minPnl
    · simp only [refreshLoop, if_pos hp]
      exact ih _ _ hg
    · simp only [refreshLoop, if_neg hp]
      apply ih
      intro p hp'
      rcases mapSet_mem _ _ _ _ hp' with h | rfl
      · exact hg p h
      · exact not_lt.mp hp

/-- C1 (counterexample): the wholesale-replace claim is false.  After
refresh #1 stores `eA`'s wallet and refresh #2 consumes a provider response
not containing it, the refresh did run against the provider
(`providerCalled = true`), yet `isSmartMoney` on `eA`'s address still
returns true and `getSmartMoneyList` still lists it: the refresh merged
instead of replacing. -/
theorem cohort_eviction_counterexample :
    r2.providerCalled = true ∧
    ([eB].all (fun e => jsToLower e.address != "0xaaaa") = true) ∧
    (isSmartMoney cfgDefault st2 400001 [] "0xAAAA").1 = true ∧
    r3.list.any (fun w => w.address == "0xaaaa") = true := by
  refine ⟨by decide, by decide, by decide, by decide⟩

/-- C1 (amended theorem): a stale-cache `getSmartMoneyList` call merges the
provider response into the existing membership: afterwards an address is a
member iff it was a member before or is the lower-cased address of a
qualifying response entry — so wallets absent from the response are retained,
not evicted. -/
theorem refresh_merges_membership (cfg : SmartMoneyConfig) (limit : Nat)
    (st : CacheState) (now : ℤ) (entries : List LeaderboardEntry) (a : String)
    (hinv : isCacheValid cfg st now = false) :
    (a ∈ (getSmartMoneyList cfg limit st now entries).state.smartMoneySet ↔
      a ∈ st.smartMoneySet ∨
        ∃ e ∈ entries, cfg.minPnl ≤ e.pnl ∧ jsToLower e.address = a) := by
  simp only [getSmartMoneyList, hinv, Bool.false_eq_true, if_false]
  exact refreshLoop_set_mem cfg a entries 0 st

/-- Witness for C1: the merge characterisation instantiated at refresh #2 —
`0xaaaa` stays a member because it was one before, even though only `eB`
qualifies in the consumed response. -/
theorem refresh_merges_membership_w :
    "0xaaaa" ∈ (getSmartMoneyList cfgDefault 10 st1 400000 [eB]).state.smartMoneySet ↔
      "0xaaaa" ∈ st1.smartMoneySet ∨
        ∃ e ∈ [eB], cfgDefault.minPnl ≤ e.pnl ∧ jsToLower e.address = "0xaaaa" :=
  refresh_merges_membership cfgDefault 10 st1 400000 [eB] "0xaaaa" (by decide)

/-- C2 (counterexample): the at-most-`limit` part of the contract is false on
the valid-cache path.  With a valid two-entry cache, `getSmartMoneyList(1)`
performs no provider call but returns both cached entries — more than
`limit = 1`. -/
theorem getList_limit_counterexample :
    rL.providerCalled = false ∧ rL.list.length = 2 ∧ ¬ rL.list.length ≤ 1 := by
  refine ⟨by decide, by decide, by decide⟩

/-- C2 (amended theorem): every returned entry meets the minimum-PnL
threshold (given the cache invariant, which refreshes preserve); the
valid-cache path performs no provider call and returns the whole cached
mapping's values — which may exceed `limit`; the refresh path calls the
provider and returns at most `limit` entries (when the provider honours the
limit) in the provider's order. -/
theorem getList_amended (cfg : SmartMoneyConfig) (limit : Nat) (st : CacheState)
    (now : ℤ) (entries : List LeaderboardEntry) :
    (cacheGood cfg st →
      (∀ w ∈ (getSmartMoneyList cfg limit st now entries).list, cfg.minPnl ≤ w.pnl) ∧
      cacheGood cfg (getSmartMoneyList cfg limit st now entries).state) ∧
    (isCacheValid cfg st now = true →
      (getSmartMoneyList cfg limit st now entries).providerCalled = false ∧
      (getSmartMoneyList cfg limit st now entries).list = st.smartMoneyCache.map Prod.snd) ∧
    (isCacheValid cfg st now = false →
      (getSmartMoneyList cfg limit st now entries).providerCalled = true ∧
      (entries.length ≤ limit →
        (getSmartMoneyList cfg limit st now entries).list.length ≤ limit) ∧
      ((getSmartMoneyList cfg limit st now entries).list.map SmartMoneyWallet.address).Sublist
        (entries.map (fun e => jsToLower e.address))) := by
  by_cases hv : isCacheValid cfg st now
  · simp only [getSmartMoneyList, hv, if_true]
    refine ⟨?_, ?_, ?_⟩
    · intro hg
      refine ⟨?_, hg⟩
      intro w hw
      rcases List.mem_map.mp hw with ⟨p, hp, rfl⟩
      exact hg p hp
    · intro _
      constructor <;> simp
    · intro hfalse
      exact absurd hfalse (by simp)
  · have hv' : isCacheValid cfg st now = false := eq_false_of_ne_true hv
    simp only [getSmartMoneyList, hv', Bool.false_eq_true, if_false]
    refine ⟨?_, ?_, ?_⟩
    · intro hg
      constructor
      · intro w hw
        exact refreshLoop_list_pnl cfg entries 0 st w hw
      · intro p hp
        exact refreshLoop_cacheGood cfg entries 0 st hg p hp
    · intro htrue
      exact absurd htrue (by simp)
    · intro _
      refine ⟨by simp, ?_, ?_⟩
      · intro hlen
        exact (refreshLoop_list_len cfg entries 0 st).trans hlen
      · exact refreshLoop_list_sublist cfg entries 0 st

/-- Witness for C2: on the fresh refresh with two qualifying entries every
returned wallet meets the threshold and the provider was called. -/
theorem getList_amended_w :
    (∀ w ∈ (getSmartMoneyList cfgDefault 2 emptyCache 0 [e1, e2]).list,
      cfgDefault.minPnl ≤ w.pnl) ∧
    (getSmartMoneyList cfgDefault 2 emptyCache 0 [e1, e2]).providerCalled = true := by
  have hg : cacheGood cfgDefault emptyCache := by
    intro p hp
    simp [emptyCache] at hp
  refine ⟨((getList_amended cfgDefault 2 emptyCache 0 [e1, e2]).1 hg).1, ?_⟩
  exact (((getList_amended cfgDefault 2 emptyCache 0 [e1, e2]).2.2) (by decide)).1

-- ============================================================================
-- Stats interleaving machinery (C4)
-- ============================================================================

/-- Folding a trace distributes over append. -/
theorem applyTrace_append (s : Stats) (l₁ l₂ : List Act) :
    applyTrace s (l₁ ++ l₂) = applyTrace (applyTrace s l₁) l₂ :=
  List.foldl_append _ _ _ _

/-- Terminal count of a cons. -/
theorem termCount_cons (a : Act) (l : List Act) :
    termCount (a :: l) = (if isDetect a then 0 else 1) + termCount l := by
  by_cases h : isDetect a <;> simp [termCount, List.filter_cons, h] <;> omega

/-- A detect-headed suffix carries no debt. -/
theorem debt_detect_cons (l : List Act) : debt (Act.detect :: l) = 0 := rfl

/-- A suffix without detect owes exactly its terminal count. -/
theorem debt_eq_termCount (l : List Act) (h : ∀ a ∈ l, isDetect a = false) :
    debt l = termCount l := by
  cases l with
  | nil => rfl
  | cons a t =>
    cases a with
    | detect =>
      have hd := h Act.detect (List.mem_cons_self _ _)
      simp [isDetect] at hd
    | skipAct => rfl
    | exec u => rfl
    | failAct => rfl

/-- Debt of an appended suffix collection. -/
theorem dsum_append (l₁ l₂ : List (List Act)) : Dsum (l₁ ++ l₂) = Dsum l₁ + Dsum l₂ := by
  simp [Dsum]

/-- Debt of a cons of suffix collections. -/
theorem dsum_cons (l : List Act) (ls : List (List Act)) :
    Dsum (l :: ls) = debt l + Dsum ls := by
  simp [Dsum]

/-- A detect step raises `tradesDetected` and fixes the terminal sum. -/
theorem applyAct_detect_counts (s : Stats) :
    termSum (applyAct s Act.detect) = termSum s ∧
    (applyAct s Act.detect).tradesDetected = s.tradesDetected + 1 := by
  simp [termSum, applyAct]

/-- A terminal step raises the terminal sum and fixes `tradesDetected`. -/
theorem applyAct_term_counts (s : Stats) (a : Act) (h : isDetect a = false) :
    termSum (applyAct s a) = termSum s + 1 ∧
    (applyAct s a).tradesDetected = s.tradesDetected := by
  cases a with
  | detect => simp [isDetect] at h
  | skipAct => refine ⟨?_, rfl⟩; simp [termSum, applyAct]; omega
  | exec u => refine ⟨?_, rfl⟩; simp [termSum, applyAct]; omega
  | failAct => refine ⟨?_, rfl⟩; simp [termSum, applyAct]; omega

/-- Dropping the head of a well-formed suffix leaves a well-formed suffix. -/
theorem wfSuffix_tail (a : Act) (l : List Act) (h : wfSuffix (a :: l)) : wfSuffix l := by
  rcases h with ⟨tl, heq, htl⟩ | ⟨hall, hc⟩
  · injection heq with h1 h2
    exact Or.inr (h2 ▸ htl)
  · refine Or.inr ⟨fun b hb => hall b (List.mem_cons_of_mem _ hb), ?_⟩
    exact le_trans (termCount_cons a l ▸ Nat.le_add_left _ _) hc

/-- The central interleaving invariant: if every pending suffix is
well-formed and the current stats' slack covers the accumulated debt, then
every point of any merged schedule satisfies
`tradesSkipped + tradesExecuted + tradesFailed ≤ tradesDetected`. -/
theorem merge_statsOK_aux (ls : List (List Act)) (m : List Act) (hm : Merge ls m) :
    ∀ s : Stats, (∀ l ∈ ls, wfSuffix l) → termSum s + Dsum ls ≤ s.tradesDetected →
      ∀ p q : List Act, m = p ++ q → statsOK (applyTrace s p) := by
  induction hm with
  | done ls h =>
    intro s hwf hinv p q hpq
    have hp : p = [] := by
      cases p with
      | nil => rfl
      | cons x xs => simp at hpq
    subst hp
    simp only [applyTrace, List.foldl_nil]
    exact le_trans (Nat.le_add_right _ _) hinv
  | step l₁ l₂ a rest m' hm' ih =>
    intro s hwf hinv p q hpq
    have hmid : wfSuffix (a :: rest) := hwf _ (by simp)
    have hwf' : ∀ l ∈ l₁ ++ rest :: l₂, wfSuffix l := by
      intro l hl
      rcases List.mem_append.mp hl with h1 | h2
      · exact hwf l (List.mem_append_left _ h1)
      · rcases List.mem_cons.mp h2 with h4 | h3
        · exact h4 ▸ wfSuffix_tail a rest hmid
        · exact hwf l (List.mem_append_right _ (List.mem_cons_of_mem _ h3))
    have hD : Dsum (l₁ ++ (a :: rest) :: l₂) = Dsum l₁ + (debt (a :: rest) + Dsum l₂) := by
      rw [dsum_append, dsum_cons]
    have hD' : Dsum (l₁ ++ rest :: l₂) = Dsum l₁ + (debt rest + Dsum l₂) := by
      rw [dsum_append, dsum_cons]
    rw [hD] at hinv
    cases p with
    | nil =>
      simp only [applyTrace, List.foldl_nil]
      show termSum s ≤ s.tradesDetected
      omega
    | cons b p' =>
      rw [List.cons_append] at hpq
      injection hpq with h1 h2
      subst h1
      simp only [applyTrace, List.foldl_cons]
      refine ih (applyAct s a) hwf' ?_ p' q h2
      rw [hD']
      by_cases hdet : isDetect a = true
      · have ha : a = Act.detect := by
          cases a
          · rfl
          all_goals simp [isDetect] at hdet
        subst ha
        have hrest : wfTail rest := by
          rcases hmid with ⟨tl, heq, htl⟩ | ⟨hall, _⟩
          · injection heq with _ h4
            exact h4 ▸ htl
          · have := hall _ (List.mem_cons_self _ _)
            simp [isDetect] at this
        have hdrest : debt rest = termCount rest := debt_eq_termCount rest hrest.1
        have hdc : termCount rest ≤ 1 := hrest.2
        have hc := applyAct_detect_counts s
        rw [hc.1, hc.2, hdrest]
        rw [debt_detect_cons] at hinv
        omega
      · have hna : isDetect a = false := eq_false_of_ne_true hdet
        have htail : wfTail (a :: rest) := by
          rcases hmid with ⟨tl, heq, _⟩ | h
          · injection heq with h3 _
            rw [h3] at hna
            simp [isDetect] at hna
          · exact h
        have hall' : ∀ b ∈ rest, isDetect b = false :=
          fun b hb => htail.1 b (List.mem_cons_of_mem _ hb)
        have hdar : debt (a :: rest) = termCount (a :: rest) := debt_eq_termCount _ htail.1
        have hdrest : debt rest = termCount rest := debt_eq_termCount rest hall'
        have hcnt : termCount (a :: rest) = 1 + termCount rest := by
          rw [termCount_cons, hna]
          simp
        have hc := applyAct_term_counts s a hna
        rw [hc.1, hc.2, hdrest]
        rw [hdar, hcnt] at hinv
        omega

/-- Every action of a merged schedule comes from one of the traces. -/
theorem merge_mem (ls : List (List Act)) (m : List Act) (hm : Merge ls m) :
    ∀ a ∈ m, ∃ l ∈ ls, a ∈ l := by
  induction hm with
  | done ls h =>
    intro a ha
    simp at ha
  | step l₁ l₂ a rest m' hm' ih =>
    intro b hb
    rcases List.mem_cons.mp hb with rfl | hb'
    · exact ⟨b :: rest, by simp, List.mem_cons_self _ _⟩
    · rcases ih b hb' with ⟨l, hl, hbl⟩
      rcases List.mem_append.mp hl with h1 | h2
      · exact ⟨l, List.mem_append_left _ h1, hbl⟩
      · rcases List.mem_cons.mp h2 with h4 | h3
        · exact ⟨a :: rest, by simp, List.mem_cons_of_mem _ (h4 ▸ hbl)⟩
        · exact ⟨l, List.mem_append_right _ (List.mem_cons_of_mem _ h3), hbl⟩

/-- Relation `statsLE` is reflexive. -/
theorem statsLE_refl (s : Stats) : statsLE s s :=
  ⟨le_rfl, le_rfl, le_rfl, le_rfl, le_rfl⟩

/-- Relation `statsLE` is transitive. -/
theorem statsLE_trans {s t u : Stats} (h1 : statsLE s t) (h2 : statsLE t u) : statsLE s u :=
  ⟨h1.1.trans h2.1, h1.2.1.trans h2.2.1, h1.2.2.1.trans h2.2.2.1,
    h1.2.2.2.1.trans h2.2.2.2.1, h1.2.2.2.2.trans h2.2.2.2.2⟩

/-- Every single handler mutation only moves the stats forward. -/
theorem statsLE_applyAct (s : Stats) (a : Act) (h : actOK a) : statsLE s (applyAct s a) := by
  cases a with
  | detect => exact ⟨Nat.le_succ _, le_rfl, le_rfl, le_rfl, le_rfl⟩
  | skipAct => exact ⟨le_rfl, le_rfl, Nat.le_succ _, le_rfl, le_rfl⟩
  | exec u => exact ⟨le_rfl, Nat.le_succ _, le_rfl, le_rfl, le_add_of_nonneg_right h⟩
  | failAct => exact ⟨le_rfl, le_rfl, le_rfl, Nat.le_succ _, le_rfl⟩

/-- Applying any trace of forward mutations only moves the stats forward. -/
theorem statsLE_applyTrace :
    ∀ (l : List Act) (s : Stats), (∀ a ∈ l, actOK a) → statsLE s (applyTrace s l) := by
  intro l
  induction l with
  | nil => intro s _; exact statsLE_refl s
  | cons a t ih =>
    intro s h
    simp only [applyTrace, List.foldl_cons]
    exact statsLE_trans (statsLE_applyAct s a (h a (List.mem_cons_self _ _)))
      (ih (applyAct s a) (fun b hb => h b (List.mem_cons_of_mem _ hb)))

/-- One non-negative wfTail fact. -/
theorem wfTail_nil : wfTail [] := by
  constructor
  · intro a ha
    simp at ha
  · simp [termCount]

/-- A single non-detect action is a tail. -/
theorem wfTail_single (a : Act) (h : isDetect a = false) : wfTail [a] := by
  constructor
  · intro b hb
    rcases List.mem_singleton.mp hb with rfl
    exact h
  · simp [termCount, List.filter_cons, h]

/-- Every handler trace starts with the detect step. -/
theorem eventTrace_head (cfg : AutoCfg) (b : Backend) (cb : Bool) (t : SmartMoneyTrade) :
    ∃ tl, eventTrace cfg b cb t = Act.detect :: tl := by
  simp only [eventTrace]
  rcases hd : copyDecision cfg t with _ | _ | o
  · exact ⟨[], rfl⟩
  · exact ⟨[Act.skipAct], rfl⟩
  · cases hdry : cfg.dryRun <;> cases b <;> cases hcb : cb <;> exact ⟨_, rfl⟩

/-- With a non-throwing callback, every handler trace is well-formed: one
detect followed by at most one terminal mutation. -/
theorem eventTrace_wf (cfg : AutoCfg) (b : Backend) (t : SmartMoneyTrade) :
    wfTrace (eventTrace cfg b false t) := by
  simp only [eventTrace]
  rcases hd : copyDecision cfg t with _ | _ | o
  · exact ⟨[], rfl, wfTail_nil⟩
  · exact ⟨[Act.skipAct], rfl, wfTail_single _ rfl⟩
  · cases hdry : cfg.dryRun
    · cases b
      · exact ⟨[Act.exec o.usdcAmount], rfl, wfTail_single _ rfl⟩
      · exact ⟨[Act.failAct], rfl, wfTail_single _ rfl⟩
      · exact ⟨[Act.failAct], rfl, wfTail_single _ rfl⟩
    · exact ⟨[Act.exec o.usdcAmount], rfl, wfTail_single _ rfl⟩

/-- Every spend increment in a handler trace is non-negative (orders below
`MIN_ORDER_SIZE` are skipped before dispatch). -/
theorem eventTrace_actOK (cfg : AutoCfg) (b : Backend) (cb : Bool) (t : SmartMoneyTrade) :
    ∀ a ∈ eventTrace cfg b cb t, actOK a := by
  intro x hx
  simp only [eventTrace] at hx
  rcases hd : copyDecision cfg t with _ | _ | o <;> rw [hd] at hx
  · rcases List.mem_singleton.mp hx with rfl
    trivial
  · simp at hx
    rcases hx with rfl | rfl <;> trivial
  · have hu : MIN_ORDER_SIZE ≤ o.usdcAmount := (copyDecision_order_inv cfg t o hd).1
    have hu0 : (0 : ℚ) ≤ o.usdcAmount := le_trans (by norm_num [MIN_ORDER_SIZE]) hu
    cases hdry : cfg.dryRun <;> rw [hdry] at hx
    · cases b <;> cases hcb : cb <;> rw [hcb] at hx <;> simp at hx <;>
        first
          | (rcases hx with rfl | rfl | rfl)
          | (rcases hx with rfl | rfl)
          | (rcases hx with rfl)
      all_goals first | exact hu0 | trivial
    · cases hcb : cb <;> rw [hcb] at hx <;> simp at hx <;>
        first
          | (rcases hx with rfl | rfl | rfl)
          | (rcases hx with rfl | rfl)
          | (rcases hx with rfl)
      all_goals first | exact hu0 | trivial

/-- C4 (amended theorem): over any interleaved schedule of any sequence of
trade events — including overlapping in-flight handlers completing out of
order across the delay and backend suspension points — no stats counter and
the cumulative spend ever decreases; and provided the user-supplied `onTrade`
callback does not throw,
`tradesDetected ≥ tradesSkipped + tradesExecuted + tradesFailed` holds at
every point of the schedule. -/
theorem stats_monotone_invariant (evs : List CopyEvent) (m : List Act)
    (hm : Merge (evs.map traceOf) m) :
    (∀ p mid q : List Act, m = p ++ mid ++ q →
      statsLE (applyTrace initStats p) (applyTrace initStats (p ++ mid))) ∧
    ((∀ e ∈ evs, e.cbThrows = false) →
      ∀ p q : List Act, m = p ++ q → statsOK (applyTrace initStats p)) := by
  constructor
  · intro p mid q hpq
    rw [applyTrace_append]
    apply statsLE_applyTrace
    intro a ha
    have ham : a ∈ m := by
      rw [hpq]
      exact List.mem_append.mpr (Or.inl (List.mem_append.mpr (Or.inr ha)))
    rcases merge_mem _ _ hm a ham with ⟨l, hl, hal⟩
    rcases List.mem_map.mp hl with ⟨e, _, rfl⟩
    exact eventTrace_actOK e.cfg e.backend e.cbThrows e.trade a hal
  · intro hcb p q hpq
    apply merge_statsOK_aux _ _ hm initStats ?_ ?_ p q hpq
    · intro l hl
      rcases List.mem_map.mp hl with ⟨e, he, rfl⟩
      have hce : e.cbThrows = false := hcb e he
      refine Or.inl ?_
      rw [traceOf, hce]
      exact eventTrace_wf e.cfg e.backend e.trade
    · have hzero : Dsum (evs.map traceOf) = 0 := by
        unfold Dsum
        apply List.sum_eq_zero
        intro x hx
        rcases List.mem_map.mp hx with ⟨l, hl, rfl⟩
        rcases List.mem_map.mp hl with ⟨e, _, rfl⟩
        rcases eventTrace_head e.cfg e.backend e.cbThrows e.trade with ⟨tl, htl⟩
        rw [traceOf, htl, debt_detect_cons]
      rw [hzero]
      simp [termSum, initStats]

/-- Witness for C4: the singleton schedule of the qualifying dry-run event
satisfies the invariant at its end and is monotone across its steps. -/
theorem stats_monotone_invariant_w :
    statsOK (applyTrace initStats [Act.detect, Act.exec 6]) ∧
    statsLE (applyTrace initStats [Act.detect]) (applyTrace initStats [Act.detect, Act.exec 6]) := by
  have htr : traceOf evW = [Act.detect, Act.exec 6] := by
    have hdry : cfgCopy.dryRun = true := rfl
    simp [traceOf, evW, eventTrace, copyDecision_fixture, hdry]
  have hmap : [evW].map traceOf = [[Act.detect, Act.exec 6]] := by
    simp [htr]
  have h0 : Merge [([] : List Act)] [] := Merge.done _ (by simp)
  have h1 : Merge [[Act.exec 6]] [Act.exec 6] := Merge.step [] [] (Act.exec 6) [] [] h0
  have h2 : Merge [[Act.detect, Act.exec 6]] [Act.detect, Act.exec 6] :=
    Merge.step [] [] Act.detect [Act.exec 6] [Act.exec 6] h1
  have hm : Merge ([evW].map traceOf) [Act.detect, Act.exec 6] := hmap ▸ h2
  have h := stats_monotone_invariant [evW] [Act.detect, Act.exec 6] hm
  constructor
  · exact h.2 (by intro e he; rcases List.mem_singleton.mp he with rfl; rfl)
      [Act.detect, Act.exec 6] [] (by simp)
  · have hmono := h.1 [Act.detect] [Act.exec 6] [] (by simp)
    simpa using hmono

/-- C4 (counterexample): the invariant as claimed is violated when the
user-supplied `onTrade` callback throws after a successful execution: the
`catch` at lines 1043-1046 then also increments `tradesFailed`, so one
processed event yields `tradesDetected = 1` but
`tradesExecuted + tradesFailed = 2`. -/
theorem stats_invariant_counterexample :
    ¬ statsOK (applyTrace initStats (eventTrace cfgCopy Backend.ok true trCopy)) ∧
    (applyTrace initStats (eventTrace cfgCopy Backend.ok true trCopy)).tradesDetected = 1 ∧
    (applyTrace initStats (eventTrace cfgCopy Backend.ok true trCopy)).tradesExecuted = 1 ∧
    (applyTrace initStats (eventTrace cfgCopy Backend.ok true trCopy)).tradesFailed = 1 := by
  have htr : eventTrace cfgCopy Backend.ok true trCopy =
      [Act.detect, Act.exec 6, Act.failAct] := by
    have hdry : cfgCopy.dryRun = true := rfl
    simp [eventTrace, copyDecision_fixture, hdry]
  rw [htr]
  refine ⟨by decide, by decide, by decide, by decide⟩

end SmartMoney

